import Mathlib

/-!
Verification of the streaming conversation driver in
`backend/core/conversation.py` (class `ConversationManager`).

The embedding below mirrors the source code:

* `cleanPath` models Python `path.replace('/memories/', '')` (left-to-right,
  non-overlapping removal of every occurrence of the root prefix string).
* `processInput`, `blockGuard`, `processBlock`, `extractBlocks` and
  `extract_memory_operations` model `_extract_memory_operations`.
  A `Block` models a message content block with optional (possibly missing)
  attributes; accessing a missing attribute models a raised `AttributeError`,
  carried in `Except`.  The inner `try` of the Python function covers only the
  inspection of `block.input`; the guard expression
  `block.type == 'tool_use' and block.name == 'memory'` is evaluated outside
  it, which `blockGuard` reflects by returning an `Except` error when a
  `tool_use` block lacks a `name` attribute.
* `send_message_streaming` models one turn of the async generator as a pure
  function of the session state and a `TurnEnv` describing the behaviour of
  the external collaborators (the completion engine via `RunnerResult`, and
  the trace writer via `TraceBehavior`, whose calls may raise since the trace
  implementation is an external collaborator).  The result records the emitted
  event list, whether the generator completed or propagated an exception,
  whether `log_error` was called, and the final session state.
* `clear_memories`, `get_token_stats` model the session lifecycle methods.
  The memory store and trace are external collaborators; following the spec,
  `clear_memories` invokes the store's clear-all operation (recorded by
  `clearAllCalled`), finalizes the old trace and rebinds the store to a fresh
  trace identifier supplied by the environment.

Timestamps attached to memory operations in the source
(`datetime.now().isoformat()`) are wall-clock data with no bearing on any
property here and are omitted from `MemOp`.
-/

namespace ConvCore

/-- The memory-root prefix string `'/memories/'` as a character list. -/
def memRoot : List Char := "/memories/".data

/-- Fuel-indexed core of Python `s.replace('/memories/', '')`: scan left to
right; whenever the remaining text starts with the 10-character root prefix,
drop those 10 characters and continue after them, otherwise keep one character
and continue.  The fuel only serves to make the recursion structural; it is
immaterial once it is at least the length of the input (`stripMemAux_congr`). -/
def stripMemAux : Nat → List Char → List Char
  | 0, s => s
  | _ + 1, [] => []
  | fuel + 1, c :: rest =>
    if (c :: rest).take 10 = memRoot then stripMemAux fuel (rest.drop 9)
    else c :: stripMemAux fuel rest

/-- Python `s.replace('/memories/', '')` on character lists. -/
def stripMem (s : List Char) : List Char := stripMemAux s.length s

/-- Python `path.replace('/memories/', '')`, the path normalization used by
`_extract_memory_operations`. -/
def cleanPath (s : String) : String := ⟨stripMem s.data⟩

/-- Python `'/memories/' in s`: some position of `s` starts with the root
prefix. -/
def hasMemSub : List Char → Bool
  | [] => false
  | c :: rest => decide ((c :: rest).take 10 = memRoot) || hasMemSub rest

/-- `'/memories/' in path` on strings. -/
def hasMemSubStr (s : String) : Bool := hasMemSub s.data

/-- Python `path.endswith('/')`. -/
def endsWithSep (s : String) : Bool :=
  match s.data.getLast? with
  | some c => decide (c = '/')
  | none => false

/-- A classified memory operation (`operation`/`path`/`new_path` fields of the
dictionaries appended to `operations`; the wall-clock `timestamp` field is
omitted). -/
structure MemOp where
  operation : String
  path : String
  new_path : Option String := none
deriving DecidableEq, Repr

/-- The `block.input` dictionary of a memory tool-use block, as read by
`input_data.get(...)`: each `none` field models an absent key, for which
`.get` returns the default (`None` for `command`, `''` for the path keys). -/
structure RawInput where
  command : Option String := none
  path : Option String := none
  old_path : Option String := none
  new_path : Option String := none
deriving DecidableEq, Repr

/-- The value of a block's `input` attribute: a dictionary, or a malformed
(non-dict) value on which `.get` raises. -/
inductive BlockInput
  | dict (d : RawInput)
  | malformed
deriving DecidableEq, Repr

/-- A message content block with duck-typed attributes; `none` models a
missing attribute (so `hasattr` is false and direct access raises). -/
structure Block where
  type : Option String := none
  name : Option String := none
  input : Option BlockInput := none
deriving DecidableEq, Repr

/-- The guard `hasattr(block, 'type') and block.type == 'tool_use' and
block.name == 'memory'`.  Evaluated outside the inner `try`: if the block is
typed `tool_use` but has no `name` attribute, the attribute access raises and
the exception propagates (modelled by `Except.error`). -/
def blockGuard (b : Block) : Except String Bool :=
  match b.type with
  | none => Except.ok false
  | some t =>
    if t = "tool_use" then
      match b.name with
      | none => Except.error "AttributeError: name"
      | some n => Except.ok (decide (n = "memory"))
    else Except.ok false

/-- The body of the per-block branch of `_extract_memory_operations`: map the
command to an operation type, normalize paths, and suppress operations with an
empty raw or normalized path.  `rename` is handled by its own branch that
checks only that the raw `old_path` is non-empty. -/
def processInput (d : RawInput) : List MemOp :=
  let path := d.path.getD ""
  if d.command = some "rename" then
    let old_path := d.old_path.getD ""
    let new_path := d.new_path.getD ""
    if old_path = "" then []
    else [{ operation := "rename", path := cleanPath old_path,
            new_path := some (cleanPath new_path) }]
  else
    let operation_type : Option String :=
      if d.command = some "view" then
        if path ≠ "" ∧ endsWithSep path = false ∧ hasMemSubStr path = true then
          some "read"
        else none
      else if d.command = some "create" then some "create"
      else if d.command = some "str_replace" ∨ d.command = some "insert" then
        some "update"
      else if d.command = some "delete" then some "delete"
      else none
    match operation_type with
    | none => []
    | some op =>
      if path = "" then []
      else
        let clean_path := cleanPath path
        if clean_path = "" then []
        else [{ operation := op, path := clean_path }]

/-- Processing of one content block: evaluate the guard (whose failure
propagates), then, inside the inner `try`, inspect the block's input; a
missing or malformed input raises inside the `try`, is caught and logged, and
the record is skipped (empty contribution). -/
def processBlock (b : Block) : Except String (List MemOp) := do
  let g ← blockGuard b
  if g then
    match b.input with
    | none => pure []
    | some BlockInput.malformed => pure []
    | some (BlockInput.dict d) => pure (processInput d)
  else pure []

/-- The block loop of `_extract_memory_operations`, in order; the first
uncaught exception aborts the whole extraction (the partially built
`operations` list is discarded, as in Python). -/
def extractBlocks : List Block → Except String (List MemOp)
  | [] => Except.ok []
  | b :: bs => do
    let ops ← processBlock b
    let rest ← extractBlocks bs
    pure (ops ++ rest)

/-- An entry of `self.messages`: either a plain `{role, content}` dictionary
appended by the driver (which has no `content` *attribute*, so the extractor's
`hasattr(msg, 'content')` test skips it), or an SDK message object whose
`content` is a list of blocks. -/
inductive MsgEntry
  | plain (role content : String)
  | sdk (content : List Block)
deriving DecidableEq, Repr

/-- The blocks the extractor iterates over for one message. -/
def msgBlocks : MsgEntry → List Block
  | MsgEntry.plain _ _ => []
  | MsgEntry.sdk bs => bs

/-- `_extract_memory_operations(messages)`: iterate the messages' blocks in
order. -/
def extract_memory_operations (msgs : List MsgEntry) : Except String (List MemOp) :=
  extractBlocks (msgs.flatMap msgBlocks)

/-- The four running token totals of the session
(`total_input_tokens`, `total_output_tokens`, `total_cache_read_tokens`,
`total_cache_write_tokens`). -/
structure Totals where
  input : Nat
  output : Nat
  cache_read : Nat
  cache_write : Nat
deriving DecidableEq, Repr

/-- The `tokens` payload of a `done` event. -/
structure TokenSnapshot where
  last_input : Nat
  last_output : Nat
  last_cache_read : Nat
  last_cache_write : Nat
  total_input : Nat
  total_output : Nat
  total_cache_read : Nat
  total_cache_write : Nat
deriving DecidableEq, Repr

/-- The typed events yielded by `send_message_streaming`. -/
inductive Event
  | thinking (data : String)
  | memory_operation (data : MemOp)
  | text (data : String)
  | done (tokens : TokenSnapshot)
  | error (message : String)
deriving DecidableEq, Repr

/-- The `usage` attribute of the completion response: either a well-formed
usage object (with the two cache counters optional, matching the `getattr`
defaults), or a malformed value on which reading `input_tokens` raises. -/
inductive UsageVal
  | ok (input_tokens output_tokens : Nat) (cache_read cache_write : Option Nat)
  | malformed
deriving DecidableEq, Repr

/-- A content block of the completion response, as seen by the text
extraction loop (`hasattr(block, 'text')`). -/
inductive RespBlock
  | textBlock (t : String)
  | otherBlock
deriving DecidableEq, Repr

/-- The `content` attribute of the completion response: an iterable list of
blocks, or a malformed value whose iteration raises. -/
inductive ContentVal
  | blocks (bs : List RespBlock)
  | malformed
deriving DecidableEq, Repr

/-- The completion response returned by `runner.until_done()`. -/
structure Response where
  content : ContentVal
  usage : UsageVal
deriving DecidableEq, Repr

/-- Behaviour of the external trace collaborator during one turn: each field
is `some e` when the corresponding `SessionTrace` call raises exception
message `e` (the trace implementation is an external collaborator whose calls
may fail), `none` when it returns normally; `logErrorRaises` covers the
`log_error` call inside the `except` handler. -/
structure TraceBehavior where
  userInputRaises : Option String := none
  llmRequestRaises : Option String := none
  llmResponseRaises : Option String := none
  tokenUsageRaises : Option String := none
  logErrorRaises : Bool := false
deriving DecidableEq, Repr

/-- Outcome of the external completion call: it raises, or it returns a final
response after appending `newMsgs` to the message history as a side effect. -/
inductive RunnerResult
  | raises (e : String)
  | returns (newMsgs : List MsgEntry) (resp : Response)
deriving DecidableEq, Repr

/-- The external world of one turn. -/
structure TurnEnv where
  trace : TraceBehavior
  runner : RunnerResult
deriving DecidableEq, Repr

/-- The session-owned state of `ConversationManager`.  `traceId` identifies
the current trace object, `memoryToolTraceId` the trace the memory tool is
bound to via `set_trace`. -/
structure SessionState where
  model : String
  system_prompt : String
  messages : List MsgEntry
  totals : Totals
  traceId : Nat
  memoryToolTraceId : Nat
deriving DecidableEq, Repr

/-- How one call of the generator ended: ran to completion, or propagated an
exception to the caller. -/
inductive Termination
  | completed
  | raised (e : String)
deriving DecidableEq, Repr

/-- Observable outcome of one `send_message_streaming` call: the events
yielded (in order), how the generator ended, the argument of the `log_error`
trace call if it was made, and the resulting session state. -/
structure TurnResult where
  events : List Event
  termination : Termination
  logError : Option String
  state : SessionState
deriving DecidableEq, Repr

/-- The response-text extraction loop: the first block carrying a `text`
attribute wins; `''` if none does. -/
def firstTextBlock : List RespBlock → String
  | [] => ""
  | RespBlock.textBlock t :: _ => t
  | RespBlock.otherBlock :: bs => firstTextBlock bs

/-- The `except` handler at the turn boundary: call `trace.log_error` and
yield a single `error` event.  If `log_error` itself raises, no `error` event
is yielded and the exception propagates. -/
def handleTurnError (tr : TraceBehavior) (evs : List Event) (st : SessionState)
    (e : String) : TurnResult :=
  if tr.logErrorRaises then
    { events := evs, termination := Termination.raised e, logError := none, state := st }
  else
    { events := evs ++ [Event.error e], termination := Termination.completed,
      logError := some e, state := st }

/-- One turn of `send_message_streaming`, line by line:
append the user message and make the two trace calls (outside the `try`, so a
failure there propagates with no events); then, inside the `try`: yield
`thinking`, run the completion (which appends `newMsgs`), extract and yield
the memory operations, extract and yield the response text, append the
assistant message, log the response, read the usage counters (cache fields
defaulting to 0), add them to the running totals, log token usage, and yield
`done` with the token snapshot.  Any exception inside the `try` is routed to
`handleTurnError`. -/
def send_message_streaming (st : SessionState) (user_message : String)
    (env : TurnEnv) : TurnResult :=
  let st1 := { st with messages := st.messages ++ [MsgEntry.plain "user" user_message] }
  match env.trace.userInputRaises with
  | some e => { events := [], termination := Termination.raised e, logError := none, state := st1 }
  | none =>
  match env.trace.llmRequestRaises with
  | some e => { events := [], termination := Termination.raised e, logError := none, state := st1 }
  | none =>
  let evs0 := [Event.thinking "Processing..."]
  match env.runner with
  | RunnerResult.raises e => handleTurnError env.trace evs0 st1 e
  | RunnerResult.returns newMsgs resp =>
    let st2 := { st1 with messages := st1.messages ++ newMsgs }
    match extract_memory_operations newMsgs with
    | Except.error e => handleTurnError env.trace evs0 st2 e
    | Except.ok ops =>
      let evs1 := evs0 ++ ops.map Event.memory_operation
      match resp.content with
      | ContentVal.malformed =>
          handleTurnError env.trace evs1 st2 "TypeError: content is not iterable"
      | ContentVal.blocks bs =>
        let response_text := firstTextBlock bs
        let evs2 := evs1 ++ [Event.text response_text]
        let st3 := { st2 with
          messages := st2.messages ++ [MsgEntry.plain "assistant" response_text] }
        match env.trace.llmResponseRaises with
        | some e => handleTurnError env.trace evs2 st3 e
        | none =>
        match resp.usage with
        | UsageVal.malformed =>
            handleTurnError env.trace evs2 st3 "AttributeError: usage.input_tokens"
        | UsageVal.ok last_input last_output cr cw =>
          let last_cache_read := cr.getD 0
          let last_cache_write := cw.getD 0
          let t := st3.totals
          let t2 : Totals :=
            { input := t.input + last_input, output := t.output + last_output,
              cache_read := t.cache_read + last_cache_read,
              cache_write := t.cache_write + last_cache_write }
          let st4 := { st3 with totals := t2 }
          match env.trace.tokenUsageRaises with
          | some e => handleTurnError env.trace evs2 st4 e
          | none =>
            let snap : TokenSnapshot :=
              { last_input := last_input, last_output := last_output,
                last_cache_read := last_cache_read, last_cache_write := last_cache_write,
                total_input := t2.input, total_output := t2.output,
                total_cache_read := t2.cache_read, total_cache_write := t2.cache_write }
            { events := evs2 ++ [Event.done snap],
              termination := Termination.completed, logError := none, state := st4 }

/-- Environment of a `clear_memories` call: the description string returned by
the external store's `clear_all_memory`, and the identity of the freshly
constructed `SessionTrace`. -/
structure ClearEnv where
  clearAllResult : String
  newTraceId : Nat
deriving DecidableEq, Repr

/-- Observable outcome of `clear_memories`. -/
structure ClearResult where
  result : String
  state : SessionState
  clearAllCalled : Bool
  oldTraceFinalized : Bool
deriving DecidableEq, Repr

/-- `clear_memories`: call the store's clear-all, empty the message history,
zero the four token totals, finalize the old trace, construct a fresh trace
with the same model and system prompt and rebind the memory tool to it, and
return the store's result description. -/
def clear_memories (st : SessionState) (env : ClearEnv) : ClearResult :=
  { result := env.clearAllResult
    clearAllCalled := true
    oldTraceFinalized := true
    state := { st with
      messages := []
      totals := { input := 0, output := 0, cache_read := 0, cache_write := 0 }
      traceId := env.newTraceId
      memoryToolTraceId := env.newTraceId } }

/-- `get_token_stats`: the four cumulative totals, with no per-call fields. -/
def get_token_stats (st : SessionState) : Totals :=
  { input := st.totals.input, output := st.totals.output,
    cache_read := st.totals.cache_read, cache_write := st.totals.cache_write }

/-- Whether an event is a `memory_operation` event. -/
def isMemOpEvent : Event → Bool
  | Event.memory_operation _ => true
  | _ => false

/-- Whether an event is an `error` event. -/
def isErrorEvent : Event → Bool
  | Event.error _ => true
  | _ => false

/-- Whether an event is a `done` event. -/
def isDoneEvent : Event → Bool
  | Event.done _ => true
  | _ => false

/-- Terminal part of the claimed per-turn grammar: `text done | error`. -/
def tailClaimed : List Event → Bool
  | [Event.text _, Event.done _] => true
  | [Event.error _] => true
  | _ => false

/-- The claimed grammar `thinking (memory_operation)* (text done | error)`,
holding exactly once with nothing after the terminal event. -/
def matchesClaimedGrammar (evs : List Event) : Bool :=
  match evs with
  | Event.thinking _ :: rest => tailClaimed (rest.dropWhile isMemOpEvent)
  | _ => false

/-- Terminal part of the amended grammar: `text done | error | text error`. -/
def tailAmended : List Event → Bool
  | [Event.text _, Event.done _] => true
  | [Event.error _] => true
  | [Event.text _, Event.error _] => true
  | _ => false

/-- The amended grammar `thinking (memory_operation)* (text done | text? error)`. -/
def matchesAmendedGrammar (evs : List Event) : Bool :=
  match evs with
  | Event.thinking _ :: rest => tailAmended (rest.dropWhile isMemOpEvent)
  | _ => false

/-! ### Helper lemmas -/

theorem stripMemAux_nil (f : Nat) : stripMemAux f [] = [] := by
  cases f <;> rfl

theorem stripMemAux_congr : ∀ (f g : Nat) (s : List Char),
    s.length ≤ f → s.length ≤ g → stripMemAux f s = stripMemAux g s := by
  intro f
  induction f with
  | zero =>
    intro g s hf _
    have : s = [] := List.eq_nil_of_length_eq_zero (Nat.le_zero.mp hf)
    subst this
    rw [stripMemAux_nil, stripMemAux_nil]
  | succ f ih =>
    intro g s hf hg
    match s with
    | [] => rw [stripMemAux_nil, stripMemAux_nil]
    | c :: rest =>
      match g with
      | 0 => simp at hg
      | g + 1 =>
        rw [stripMemAux, stripMemAux]
        have hrf : rest.length ≤ f := by simpa using hf
        have hrg : rest.length ≤ g := by simpa using hg
        by_cases h : (c :: rest).take 10 = memRoot
        · rw [if_pos h, if_pos h]
          exact ih g (rest.drop 9)
            (by simp only [List.length_drop]; omega)
            (by simp only [List.length_drop]; omega)
        · rw [if_neg h, if_neg h, ih g rest hrf hrg]

theorem stripMem_cons (c : Char) (rest : List Char) :
    stripMem (c :: rest) =
      if (c :: rest).take 10 = memRoot then stripMem (rest.drop 9)
      else c :: stripMem rest := by
  show stripMemAux (rest.length + 1) (c :: rest) = _
  rw [stripMemAux]
  by_cases h : (c :: rest).take 10 = memRoot
  · rw [if_pos h, if_pos h]
    exact stripMemAux_congr rest.length (rest.drop 9).length (rest.drop 9)
      (by simp only [List.length_drop]; omega) le_rfl
  · rw [if_neg h, if_neg h]
    rfl

/-- Removing the root prefix consumes a leading occurrence and continues after
it. -/
theorem stripMem_root (t : List Char) : stripMem (memRoot ++ t) = stripMem t := by
  have hform : memRoot ++ t = '/' :: ("memories/".data ++ t) := rfl
  rw [hform, stripMem_cons]
  have htake : ('/' :: ("memories/".data ++ t)).take 10 = memRoot := by
    rw [← hform]
    rw [show (10 : Nat) = memRoot.length from rfl]
    exact List.take_left memRoot t
  rw [if_pos htake]
  have hdrop : ("memories/".data ++ t).drop 9 = t := by
    rw [show (9 : Nat) = ("memories/".data).length from rfl]
    exact List.drop_left _ t
  rw [hdrop]

/-- A string without any occurrence of the root prefix is left unchanged. -/
theorem stripMem_of_not_sub : ∀ s : List Char, hasMemSub s = false → stripMem s = s := by
  intro s
  induction s with
  | nil => intro _; rfl
  | cons c rest ih =>
    intro h
    rw [hasMemSub] at h
    simp only [Bool.or_eq_false_iff, decide_eq_false_iff_not] at h
    rw [stripMem_cons, if_neg h.1, ih h.2]

theorem stripMemAux_ne_nil : ∀ (f : Nat) (s : List Char), s.length ≤ f →
    s ≠ [] → s.getLast? ≠ some '/' → stripMemAux f s ≠ [] := by
  intro f
  induction f with
  | zero =>
    intro s hf hne _
    exact absurd (List.eq_nil_of_length_eq_zero (Nat.le_zero.mp hf)) hne
  | succ f ih =>
    intro s hf hne hlast
    match s with
    | [] => exact absurd rfl hne
    | c :: rest =>
      rw [stripMemAux]
      by_cases h : (c :: rest).take 10 = memRoot
      · rw [if_pos h]
        have hsplit : c :: rest = memRoot ++ rest.drop 9 := by
          conv_lhs => rw [← List.take_append_drop 10 (c :: rest)]
          rw [h]
          rfl
        by_cases ht : rest.drop 9 = []
        · exfalso
          rw [ht, List.append_nil] at hsplit
          rw [hsplit] at hlast
          exact hlast rfl
        · have hlast2 : (rest.drop 9).getLast? ≠ some '/' := by
            rw [hsplit, List.getLast?_append_of_ne_nil _ ht] at hlast
            exact hlast
          have hlen : (rest.drop 9).length ≤ f := by
            have : rest.length ≤ f := by simpa using hf
            simp only [List.length_drop]
            omega
          exact ih (rest.drop 9) hlen ht hlast2
      · rw [if_neg h]
        exact List.cons_ne_nil c _

/-- A non-empty path not ending in the separator keeps a non-empty
normalization. -/
theorem stripMem_ne_nil (s : List Char) (hne : s ≠ []) (hlast : s.getLast? ≠ some '/') :
    stripMem s ≠ [] :=
  stripMemAux_ne_nil s.length s le_rfl hne hlast

theorem string_eq_iff_data {s t : String} : s = t ↔ s.data = t.data :=
  String.ext_iff

theorem cleanPath_ne_empty {s : String} (h : stripMem s.data ≠ []) :
    cleanPath s ≠ "" := by
  intro hc
  rw [cleanPath, string_eq_iff_data] at hc
  exact h hc

/-- Memory-operation events are transparent to the grammar tail. -/
theorem dropWhile_memOps (ops : List MemOp) (l : List Event) :
    (ops.map Event.memory_operation ++ l).dropWhile isMemOpEvent =
      l.dropWhile isMemOpEvent := by
  induction ops with
  | nil => rfl
  | cons o os ih =>
    simp only [List.map_cons, List.cons_append, List.dropWhile_cons]
    rw [show isMemOpEvent (Event.memory_operation o) = true from rfl]
    simpa using ih

/-! ### Claim theorems: classifier -/

/-- C3 (counterexample): the classifier's normalization is Python
`replace('/memories/', '')`, which removes every occurrence of the root
prefix, not exactly one leading occurrence: on the root-prefixed path
`/memories/a/memories/b` it yields `ab` rather than `a/memories/b`; and it is
not idempotent: normalizing `/memories/a/memor/memories/ies/b` yields
`a/memories/b`, whose re-normalization differs from it. -/
theorem C3_cex :
    cleanPath "/memories/a/memories/b" = "ab" ∧
    cleanPath "/memories/a/memories/b" ≠ "a/memories/b" ∧
    cleanPath (cleanPath "/memories/a/memor/memories/ies/b") ≠
      cleanPath "/memories/a/memor/memories/ies/b" :=
  ⟨rfl, by decide, by decide⟩

/-- C3 (amended): normalization removes every left-to-right occurrence of the
root prefix `/memories/`; consequently, for a root-prefixed path whose
remainder contains no further occurrence of the prefix, exactly the leading
prefix is stripped, and re-normalizing the result is a no-op. -/
theorem C3_amended (rest : String) (h : hasMemSub rest.data = false) :
    cleanPath ⟨memRoot ++ rest.data⟩ = rest ∧ cleanPath rest = rest := by
  have h2 : stripMem rest.data = rest.data := stripMem_of_not_sub rest.data h
  constructor
  · rw [cleanPath, string_eq_iff_data]
    show stripMem (memRoot ++ rest.data) = rest.data
    rw [stripMem_root, h2]
  · rw [cleanPath, string_eq_iff_data]
    exact h2

/-- C3 (witness): the amended statement at the concrete path
`/memories/profile.md`. -/
theorem C3_witness :
    cleanPath "/memories/profile.md" = "profile.md" ∧
    cleanPath "profile.md" = "profile.md" :=
  C3_amended "profile.md" (by decide)

/-- C6 (confirmed): for a `view` record, a directory-style target (trailing
separator) never yields a `read` operation, while a file target under the
memory root (its path starts with `/memories/` and does not end in the
separator) always yields exactly one `read` operation, with a non-empty
normalized path. -/
theorem C6_view_read (d : RawInput) (hc : d.command = some "view") :
    (endsWithSep (d.path.getD "") = true → processInput d = []) ∧
    ((d.path.getD "").data.take 10 = memRoot →
      endsWithSep (d.path.getD "") = false →
      processInput d =
        [{ operation := "read", path := cleanPath (d.path.getD ""), new_path := none }] ∧
      cleanPath (d.path.getD "") ≠ "") := by
  have hnr : ¬d.command = some "rename" := by rw [hc]; decide
  constructor
  · intro hsep
    simp only [processInput]
    rw [if_neg hnr, if_pos hc]
    rw [if_neg (fun hand => by rw [hsep] at hand; exact absurd hand.2.1 (by decide))]
  · intro hroot hsep
    have hne : (d.path.getD "").data ≠ [] := by
      intro hnil
      rw [hnil] at hroot
      exact absurd hroot (by decide)
    have hpne : d.path.getD "" ≠ "" := by
      intro hq
      rw [hq] at hne
      exact hne rfl
    have hsub : hasMemSubStr (d.path.getD "") = true := by
      rw [hasMemSubStr]
      match hm : (d.path.getD "").data with
      | [] => exact absurd hm hne
      | c :: restc =>
        rw [hasMemSub]
        rw [hm] at hroot
        simp [hroot]
    have hlast : (d.path.getD "").data.getLast? ≠ some '/' := by
      intro hq
      rw [endsWithSep, hq] at hsep
      exact absurd hsep (by decide)
    have hclean : cleanPath (d.path.getD "") ≠ "" :=
      cleanPath_ne_empty (stripMem_ne_nil _ hne hlast)
    refine ⟨?_, hclean⟩
    simp only [processInput]
    rw [if_neg hnr, if_pos hc, if_pos ⟨hpne, hsep, hsub⟩]
    dsimp only
    rw [if_neg hpne, if_neg hclean]

/-- C6 (witness): `view /memories/notes.md` yields exactly one `read`
operation with normalized path `notes.md`; `view /memories/notes/` yields no
operation. -/
theorem C6_witness :
    processInput { command := some "view", path := some "/memories/notes.md" } =
      [{ operation := "read", path := cleanPath "/memories/notes.md", new_path := none }] ∧
    cleanPath "/memories/notes.md" = "notes.md" ∧
    processInput { command := some "view", path := some "/memories/notes/" } = [] :=
  ⟨((C6_view_read { command := some "view", path := some "/memories/notes.md" } rfl).2
      (by decide) (by decide)).1,
   rfl,
   (C6_view_read { command := some "view", path := some "/memories/notes/" } rfl).1 (by decide)⟩

/-- C7 (confirmed): a `rename` invocation carrying an old path (non-empty raw
`old_path`) yields exactly one operation, of kind `rename`, carrying both the
normalized old path and the normalized new path — never a separate
`delete`/`create` pair. -/
theorem C7_rename_single (d : RawInput) (hc : d.command = some "rename")
    (hold : d.old_path.getD "" ≠ "") :
    processInput d =
      [{ operation := "rename", path := cleanPath (d.old_path.getD ""),
         new_path := some (cleanPath (d.new_path.getD "")) }] := by
  simp only [processInput]
  rw [if_pos hc, if_neg hold]

/-- C7 (witness): `rename /memories/a.md /memories/b.md` yields the single
two-sided rename operation. -/
theorem C7_witness :
    processInput { command := some "rename", old_path := some "/memories/a.md",
                   new_path := some "/memories/b.md" } =
      [{ operation := "rename", path := "a.md", new_path := some "b.md" }] :=
  C7_rename_single
    { command := some "rename", old_path := some "/memories/a.md",
      new_path := some "/memories/b.md" } rfl (by decide)

/-- C8 (counterexample): a `rename` record whose old path is the bare root
`/memories/` — a path that normalizes to the empty string — still emits an
operation (with empty normalized path): the rename branch checks only that
the raw `old_path` is non-empty, bypassing the empty-normalized-path
suppression. -/
theorem C8_cex :
    cleanPath "/memories/" = "" ∧
    processInput { command := some "rename", old_path := some "/memories/",
                   new_path := some "/memories/new.md" } =
      [{ operation := "rename", path := "", new_path := some "new.md" }] :=
  ⟨rfl, rfl⟩

/-- C8 (amended): for the five non-rename command kinds (`view`, `create`,
`str_replace`, `insert`, `delete`) a record whose path normalizes to the
empty string emits no operation; for `rename`, emission is suppressed exactly
when the raw old path is empty. -/
theorem C8_amended (d : RawInput) :
    (d.command ≠ some "rename" → cleanPath (d.path.getD "") = "" →
      processInput d = []) ∧
    (d.command = some "rename" → d.old_path.getD "" = "" →
      processInput d = []) := by
  constructor
  · intro hnr hclean
    simp only [processInput]
    rw [if_neg hnr]
    split
    · rfl
    · by_cases hp : d.path.getD "" = ""
      · rw [if_pos hp]
      · rw [if_neg hp, if_pos hclean]
  · intro hr hold
    simp only [processInput]
    rw [if_pos hr, if_pos hold]

/-- C8 (witness): the amended statement at `create /memories/` (normalized
path empty, suppressed) and at a rename with empty raw old path
(suppressed). -/
theorem C8_witness :
    processInput { command := some "create", path := some "/memories/" } = [] ∧
    processInput { command := some "rename", old_path := some "" } = [] :=
  ⟨(C8_amended { command := some "create", path := some "/memories/" }).1
      (by decide) rfl,
   (C8_amended { command := some "rename", old_path := some "" }).2 rfl rfl⟩

/-- C10 (confirmed): a `view` record emits a `read` operation only when the
literal substring `/memories/` occurs in the raw path: whenever that
substring is absent — including the bare root `/memories` without trailing
separator and any relative path — no operation is emitted. -/
theorem C10_view_requires_root_sub (d : RawInput) (hc : d.command = some "view")
    (hsub : hasMemSubStr (d.path.getD "") = false) :
    processInput d = [] := by
  have hnr : ¬d.command = some "rename" := by rw [hc]; decide
  simp only [processInput]
  rw [if_neg hnr, if_pos hc]
  rw [if_neg (fun hand => by rw [hsub] at hand; exact absurd hand.2.2 (by decide))]

/-- C10 (witness): `view /memories` (no trailing separator) and
`view notes/profile.md` (relative, no root substring) both emit nothing, even
though neither path ends in a separator. -/
theorem C10_witness :
    processInput { command := some "view", path := some "/memories" } = [] ∧
    processInput { command := some "view", path := some "notes/profile.md" } = [] ∧
    endsWithSep "/memories" = false :=
  ⟨C10_view_requires_root_sub { command := some "view", path := some "/memories" }
      rfl (by decide),
   C10_view_requires_root_sub { command := some "view", path := some "notes/profile.md" }
      rfl (by decide),
   rfl⟩

/-- A tool-use block for the memory tool whose `name` attribute is missing:
the guard `block.type == 'tool_use' and block.name == 'memory'` raises when
evaluated, outside the inner `try`. -/
def badNameBlock : Block :=
  { type := some "tool_use", name := none,
    input := some (BlockInput.dict { command := some "create", path := some "/memories/a.md" }) }

/-- A well-formed memory `create` block. -/
def goodCreateBlock : Block :=
  { type := some "tool_use", name := some "memory",
    input := some (BlockInput.dict { command := some "create", path := some "/memories/b.md" }) }

/-- C5 (counterexample): a malformed record can abort the whole
classification: a block typed `tool_use` with no `name` attribute raises in
the guard, outside the per-record `try`, so extraction errors out and the
following well-formed record — which on its own classifies to one `create`
operation — is never classified. -/
theorem C5_cex :
    extract_memory_operations [MsgEntry.sdk [badNameBlock, goodCreateBlock]] =
      Except.error "AttributeError: name" ∧
    extract_memory_operations [MsgEntry.sdk [goodCreateBlock]] =
      Except.ok [{ operation := "create", path := "b.md", new_path := none }] :=
  ⟨rfl, rfl⟩

/-- C5 (amended): failures raised while inspecting a record's input payload
(a missing `input` attribute, or a non-dictionary input on which `.get`
raises) are caught inside the per-record `try`: the record contributes
nothing and classification of the remaining records proceeds unchanged.
(A failure in the guard itself — a `tool_use` block lacking a `name`
attribute — is outside the `try` and aborts the whole extraction, as the
counterexample shows.) -/
theorem C5_amended (bs : List Block) (b : Block) (ht : b.type = some "tool_use")
    (hn : b.name = some "memory")
    (hi : b.input = none ∨ b.input = some BlockInput.malformed) :
    processBlock b = Except.ok [] ∧ extractBlocks (b :: bs) = extractBlocks bs := by
  have hpb : processBlock b = Except.ok [] := by
    rcases hi with h | h <;>
      simp [processBlock, blockGuard, ht, hn, h, Except.bind]
  refine ⟨hpb, ?_⟩
  cases h2 : extractBlocks bs with
  | error e =>
    simp only [extractBlocks, hpb, h2]
    rfl
  | ok l =>
    simp only [extractBlocks, hpb, h2]
    rfl

/-- C5 (witness): the amended statement for a memory tool-use block with a
missing `input` attribute, followed by a well-formed `create` block. -/
theorem C5_witness :
    processBlock { type := some "tool_use", name := some "memory", input := none } =
      Except.ok [] ∧
    extractBlocks [{ type := some "tool_use", name := some "memory", input := none },
        goodCreateBlock] =
      extractBlocks [goodCreateBlock] :=
  C5_amended [goodCreateBlock]
    { type := some "tool_use", name := some "memory", input := none }
    rfl rfl (Or.inl rfl)

/-! ### Claim theorems: driver and session lifecycle -/

/-- C9 (confirmed): `clear_memories` invokes the external store's clear-all
operation and returns its result description, discards the message history,
zeroes all four cumulative token totals (so `get_token_stats` afterwards
returns all zeros), finalizes the old trace, and rebinds the memory store to
the freshly started trace, leaving the model identifier and system prompt
unchanged. -/
theorem C9_clear_memories (st : SessionState) (env : ClearEnv) :
    (clear_memories st env).result = env.clearAllResult ∧
    (clear_memories st env).clearAllCalled = true ∧
    (clear_memories st env).oldTraceFinalized = true ∧
    (clear_memories st env).state.messages = [] ∧
    (clear_memories st env).state.totals =
      { input := 0, output := 0, cache_read := 0, cache_write := 0 } ∧
    get_token_stats (clear_memories st env).state =
      { input := 0, output := 0, cache_read := 0, cache_write := 0 } ∧
    (clear_memories st env).state.model = st.model ∧
    (clear_memories st env).state.system_prompt = st.system_prompt ∧
    (clear_memories st env).state.traceId = env.newTraceId ∧
    (clear_memories st env).state.memoryToolTraceId = env.newTraceId :=
  ⟨rfl, rfl, rfl, rfl, rfl, rfl, rfl, rfl, rfl, rfl⟩

/-- C4 (confirmed): on every turn that completes, the `done` snapshot and the
resulting session totals satisfy `total_after = total_before + last_*` in
each of the four categories, with missing cache-read/cache-write usage fields
defaulting to 0; and `clear_memories` drives all four totals to 0. -/
theorem C4_token_accounting :
    (∀ (st : SessionState) (m : String) (tr : TraceBehavior)
        (newMsgs : List MsgEntry) (bs : List RespBlock) (i o : Nat)
        (cr cw : Option Nat) (ops : List MemOp),
      tr.userInputRaises = none → tr.llmRequestRaises = none →
      tr.llmResponseRaises = none → tr.tokenUsageRaises = none →
      extract_memory_operations newMsgs = Except.ok ops →
      (send_message_streaming st m
          ⟨tr, RunnerResult.returns newMsgs
            { content := ContentVal.blocks bs,
              usage := UsageVal.ok i o cr cw }⟩).events.getLast? =
        some (Event.done
          { last_input := i, last_output := o,
            last_cache_read := cr.getD 0, last_cache_write := cw.getD 0,
            total_input := st.totals.input + i,
            total_output := st.totals.output + o,
            total_cache_read := st.totals.cache_read + cr.getD 0,
            total_cache_write := st.totals.cache_write + cw.getD 0 }) ∧
      (send_message_streaming st m
          ⟨tr, RunnerResult.returns newMsgs
            { content := ContentVal.blocks bs,
              usage := UsageVal.ok i o cr cw }⟩).state.totals =
        { input := st.totals.input + i, output := st.totals.output + o,
          cache_read := st.totals.cache_read + cr.getD 0,
          cache_write := st.totals.cache_write + cw.getD 0 }) ∧
    (∀ (st : SessionState) (env : ClearEnv),
      (clear_memories st env).state.totals =
        { input := 0, output := 0, cache_read := 0, cache_write := 0 } ∧
      get_token_stats (clear_memories st env).state =
        { input := 0, output := 0, cache_read := 0, cache_write := 0 }) := by
  constructor
  · intro st m tr newMsgs bs i o cr cw ops h1 h2 h3 h4 hops
    simp only [send_message_streaming, h1, h2, h3, h4, hops]
    constructor
    · rw [List.getLast?_concat]
    · trivial
  · intro st env
    exact ⟨rfl, rfl⟩

/-- C4 (witness): a turn from zero totals with usage
`input=5, output=7, cache_read missing, cache_write=3` ends in a `done`
snapshot `(5, 7, 0, 3)` with matching new totals, and a `clear_memories`
afterwards returns all-zero totals. -/
theorem C4_witness :
    (send_message_streaming
        { model := "m", system_prompt := "s", messages := [],
          totals := { input := 0, output := 0, cache_read := 0, cache_write := 0 },
          traceId := 0, memoryToolTraceId := 0 } "hi"
        ⟨{}, RunnerResult.returns []
          { content := ContentVal.blocks [RespBlock.textBlock "ok"],
            usage := UsageVal.ok 5 7 none (some 3) }⟩).events.getLast? =
      some (Event.done
        { last_input := 5, last_output := 7, last_cache_read := 0,
          last_cache_write := 3, total_input := 5, total_output := 7,
          total_cache_read := 0, total_cache_write := 3 }) ∧
    (clear_memories
        { model := "m", system_prompt := "s", messages := [],
          totals := { input := 150, output := 9, cache_read := 2, cache_write := 1 },
          traceId := 0, memoryToolTraceId := 0 }
        { clearAllResult := "cleared", newTraceId := 1 }).state.totals =
      { input := 0, output := 0, cache_read := 0, cache_write := 0 } :=
  ⟨(C4_token_accounting.1
      { model := "m", system_prompt := "s", messages := [],
        totals := { input := 0, output := 0, cache_read := 0, cache_write := 0 },
        traceId := 0, memoryToolTraceId := 0 } "hi" {} [] [RespBlock.textBlock "ok"]
      5 7 none (some 3) [] rfl rfl rfl rfl rfl).1,
   (C4_token_accounting.2
      { model := "m", system_prompt := "s", messages := [],
        totals := { input := 150, output := 9, cache_read := 2, cache_write := 1 },
        traceId := 0, memoryToolTraceId := 0 }
      { clearAllResult := "cleared", newTraceId := 1 }).1⟩

theorem getLast?_cons_append_one {α : Type} (a : α) (l : List α) (x : α) :
    (a :: (l ++ [x])).getLast? = some x := by
  rw [← List.cons_append, List.getLast?_concat]

theorem getLast?_cons_append_two {α : Type} (a : α) (l : List α) (x y : α) :
    (a :: (l ++ [x, y])).getLast? = some y := by
  rw [← List.cons_append, List.getLast?_append_of_ne_nil _ (by simp)]
  rfl

theorem filter_error_memOps (ops : List MemOp) :
    (ops.map Event.memory_operation).filter isErrorEvent = [] := by
  induction ops with
  | nil => rfl
  | cons o os ih => simp [isErrorEvent, ih]

theorem filter_done_memOps (ops : List MemOp) :
    (ops.map Event.memory_operation).filter isDoneEvent = [] := by
  induction ops with
  | nil => rfl
  | cons o os ih => simp [isDoneEvent, ih]

/-- A session state used for the concrete turn evaluations below. -/
def st0 : SessionState :=
  { model := "claude", system_prompt := "sys", messages := [],
    totals := { input := 0, output := 0, cache_read := 0, cache_write := 0 },
    traceId := 0, memoryToolTraceId := 0 }

/-- A turn whose completion returns a response with a well-formed text block
but a malformed `usage` value: reading `usage.input_tokens` raises after the
`text` event has already been yielded. -/
def envUsageBad : TurnEnv :=
  ⟨{}, RunnerResult.returns []
    { content := ContentVal.blocks [RespBlock.textBlock "Hello"],
      usage := UsageVal.malformed }⟩

/-- C1 (counterexample): a turn whose response has malformed usage counters
(a failure mode the source's own error taxonomy lists) emits
`thinking, text, error` — a `text` event followed by `error` instead of
`done` — which the claimed grammar
`thinking (memory_operation)* (text done | error)` rejects. -/
theorem C1_cex :
    (send_message_streaming st0 "hi" envUsageBad).events =
      [Event.thinking "Processing...", Event.text "Hello",
       Event.error "AttributeError: usage.input_tokens"] ∧
    matchesClaimedGrammar (send_message_streaming st0 "hi" envUsageBad).events = false :=
  ⟨rfl, rfl⟩

/-- C1 (amended): provided the two trace calls made before the `try` block
(`log_user_input`, `log_llm_request`) and the `log_error` call inside the
`except` handler do not raise, every turn's event sequence matches the
grammar `thinking (memory_operation)* (text done | text? error)` exactly
once: one `thinking` first, then zero or more `memory_operation`s, then
either `text done`, or a terminal `error` optionally preceded by `text` (the
`text`-then-`error` shape arises when a failure occurs after the text was
yielded, e.g. from malformed usage counters or a trace-logging failure), and
nothing follows the terminal event. -/
theorem C1_amended (st : SessionState) (m : String) (env : TurnEnv)
    (h1 : env.trace.userInputRaises = none)
    (h2 : env.trace.llmRequestRaises = none)
    (h3 : env.trace.logErrorRaises = false) :
    matchesAmendedGrammar (send_message_streaming st m env).events = true := by
  obtain ⟨⟨ui, lreq, lresp, tok, lerr⟩, runner⟩ := env
  dsimp only at h1 h2 h3
  subst h1
  subst h2
  subst h3
  cases runner with
  | raises e =>
    simp [send_message_streaming, handleTurnError, matchesAmendedGrammar,
      tailAmended, isMemOpEvent, List.dropWhile_cons]
  | returns newMsgs resp =>
    obtain ⟨content, usage⟩ := resp
    cases hext : extract_memory_operations newMsgs with
    | error e =>
      simp [send_message_streaming, handleTurnError, hext, matchesAmendedGrammar,
        tailAmended, isMemOpEvent, List.dropWhile_cons]
    | ok ops =>
      cases content with
      | malformed =>
        simp [send_message_streaming, handleTurnError, hext, matchesAmendedGrammar,
          tailAmended, dropWhile_memOps, isMemOpEvent, List.dropWhile_cons]
      | blocks rbs =>
        cases lresp with
        | some e =>
          simp [send_message_streaming, handleTurnError, hext, matchesAmendedGrammar,
            tailAmended, dropWhile_memOps, isMemOpEvent, List.dropWhile_cons]
        | none =>
          cases usage with
          | malformed =>
            simp [send_message_streaming, handleTurnError, hext, matchesAmendedGrammar,
              tailAmended, dropWhile_memOps, isMemOpEvent, List.dropWhile_cons]
          | ok i o cr cw =>
            cases tok with
            | some e =>
              simp [send_message_streaming, handleTurnError, hext, matchesAmendedGrammar,
                tailAmended, dropWhile_memOps, isMemOpEvent, List.dropWhile_cons]
            | none =>
              simp [send_message_streaming, handleTurnError, hext, matchesAmendedGrammar,
                tailAmended, dropWhile_memOps, isMemOpEvent, List.dropWhile_cons]

/-- A fully benign turn environment: the completion returns one memory
`create` tool call and a text reply, and no trace call raises. -/
def envGood : TurnEnv :=
  ⟨{}, RunnerResult.returns [MsgEntry.sdk [goodCreateBlock]]
    { content := ContentVal.blocks [RespBlock.textBlock "Got it."],
      usage := UsageVal.ok 11 4 (some 2) none }⟩

/-- C1 (witness): the amended grammar holds on a concrete benign turn. -/
theorem C1_witness :
    matchesAmendedGrammar (send_message_streaming st0 "Remember my name" envGood).events = true :=
  C1_amended st0 "Remember my name" envGood rfl rfl rfl

/-- A turn in which the pre-`try` trace call `log_user_input` raises. -/
def envUserInputBad : TurnEnv :=
  ⟨{ userInputRaises := some "OSError: trace write failed" },
   RunnerResult.raises "unreached"⟩

/-- C2 (counterexample): an exception raised by the step-1 trace call
`log_user_input` — made before the `try` block — is not caught at the turn
boundary: the exception propagates to the caller, no event at all is emitted
(in particular no `error` event), and `log_error` is never called. -/
theorem C2_cex :
    (send_message_streaming st0 "hi" envUserInputBad).events = [] ∧
    (send_message_streaming st0 "hi" envUserInputBad).logError = none ∧
    (send_message_streaming st0 "hi" envUserInputBad).termination =
      Termination.raised "OSError: trace write failed" :=
  ⟨rfl, rfl, rfl⟩

/-- C2 (amended): provided the two pre-`try` trace calls and the handler's
`log_error` do not raise, the turn always completes (never propagates an
exception), and either it succeeds — no `error` event, `log_error` not
called, terminal `done` — or some step inside the `try` failed, in which case
`log_error` is called with the failure message, exactly one `error` event
carrying that message is emitted, it is the last event, and no `done` event
is emitted. -/
theorem C2_amended (st : SessionState) (m : String) (env : TurnEnv)
    (h1 : env.trace.userInputRaises = none)
    (h2 : env.trace.llmRequestRaises = none)
    (h3 : env.trace.logErrorRaises = false) :
    (send_message_streaming st m env).termination = Termination.completed ∧
    (((send_message_streaming st m env).logError = none ∧
      (send_message_streaming st m env).events.filter isErrorEvent = [] ∧
      (∃ snap, (send_message_streaming st m env).events.getLast? =
        some (Event.done snap))) ∨
     (∃ e, (send_message_streaming st m env).logError = some e ∧
      (send_message_streaming st m env).events.getLast? = some (Event.error e) ∧
      ((send_message_streaming st m env).events.filter isErrorEvent).length = 1 ∧
      (send_message_streaming st m env).events.filter isDoneEvent = [])) := by
  obtain ⟨⟨ui, lreq, lresp, tok, lerr⟩, runner⟩ := env
  dsimp only at h1 h2 h3
  subst h1
  subst h2
  subst h3
  cases runner with
  | raises e =>
    refine ⟨rfl, Or.inr ⟨e, rfl, ?_, ?_, ?_⟩⟩ <;>
      simp [send_message_streaming, handleTurnError, isErrorEvent, isDoneEvent]
  | returns newMsgs resp =>
    obtain ⟨content, usage⟩ := resp
    cases hext : extract_memory_operations newMsgs with
    | error e =>
      refine ⟨?_, Or.inr ⟨e, ?_, ?_, ?_, ?_⟩⟩ <;>
        simp [send_message_streaming, handleTurnError, hext, isErrorEvent, isDoneEvent]
    | ok ops =>
      cases content with
      | malformed =>
        refine ⟨?_, Or.inr ⟨"TypeError: content is not iterable", ?_, ?_, ?_, ?_⟩⟩ <;>
          simp [send_message_streaming, handleTurnError, hext, isErrorEvent,
            isDoneEvent, filter_error_memOps, filter_done_memOps, List.getLast?_concat,
            getLast?_cons_append_one, getLast?_cons_append_two]
      | blocks rbs =>
        cases lresp with
        | some e =>
          refine ⟨?_, Or.inr ⟨e, ?_, ?_, ?_, ?_⟩⟩ <;>
            simp [send_message_streaming, handleTurnError, hext, isErrorEvent,
              isDoneEvent, filter_error_memOps, filter_done_memOps, List.getLast?_concat,
            getLast?_cons_append_one, getLast?_cons_append_two]
        | none =>
          cases usage with
          | malformed =>
            refine ⟨?_, Or.inr ⟨"AttributeError: usage.input_tokens", ?_, ?_, ?_, ?_⟩⟩ <;>
              simp [send_message_streaming, handleTurnError, hext, isErrorEvent,
                isDoneEvent, filter_error_memOps, filter_done_memOps, List.getLast?_concat,
            getLast?_cons_append_one, getLast?_cons_append_two]
          | ok i o cr cw =>
            cases tok with
            | some e =>
              refine ⟨?_, Or.inr ⟨e, ?_, ?_, ?_, ?_⟩⟩ <;>
                simp [send_message_streaming, handleTurnError, hext, isErrorEvent,
                  isDoneEvent, filter_error_memOps, filter_done_memOps, List.getLast?_concat,
            getLast?_cons_append_one, getLast?_cons_append_two]
            | none =>
              simp only [send_message_streaming, hext]
              refine ⟨True.intro, Or.inl ⟨True.intro, ?_, ?_⟩⟩
              · simp [List.filter_append, isErrorEvent, filter_error_memOps]
              · exact ⟨_, by rw [List.getLast?_concat]⟩

/-- C2 (witness): the amended statement on a concrete benign turn. -/
theorem C2_witness :
    (send_message_streaming st0 "Remember my name" envGood).termination =
      Termination.completed ∧
    (((send_message_streaming st0 "Remember my name" envGood).logError = none ∧
      (send_message_streaming st0 "Remember my name" envGood).events.filter isErrorEvent = [] ∧
      (∃ snap, (send_message_streaming st0 "Remember my name" envGood).events.getLast? =
        some (Event.done snap))) ∨
     (∃ e, (send_message_streaming st0 "Remember my name" envGood).logError = some e ∧
      (send_message_streaming st0 "Remember my name" envGood).events.getLast? =
        some (Event.error e) ∧
      ((send_message_streaming st0 "Remember my name" envGood).events.filter
        isErrorEvent).length = 1 ∧
      (send_message_streaming st0 "Remember my name" envGood).events.filter
        isDoneEvent = [])) :=
  C2_amended st0 "Remember my name" envGood rfl rfl rfl

end ConvCore
